import Mathlib

/-!
# Verification of oauth2-clientd (src/oauth2_client/__init__.py)

A shallow embedding of the pure logic of the oauth2-clientd single-file
client, together with proofs of the specification claims about it.

Conventions of the embedding:
* Python byte strings are `List Nat` with every element below 256.
* Python dicts are association lists; only the key-to-value mapping is
  modelled (insertion order is irrelevant to every claim).
* External library primitives (RSA-OAEP, the AES-CTR keystream, SHA-256,
  json.dumps/json.loads, os.urandom) are parameters of the theorems,
  constrained only by their documented contracts; everything the repository
  itself computes (base64url, the composition of the crypto pipeline, URL
  validation, the arbitration and password loops, the write-rename
  discipline) is defined concretely from the source.
* Code that runs under a held lock is modelled as one atomic step of a
  transition system; concurrency is an arbitrary interleaving of steps.
-/

set_option maxHeartbeats 1000000

/-! ## Association-list model of Python dicts -/

/-- Look up the value bound to key `k` (Python `d[k]` / `k in d`). -/
def dlookup : List (String × String) → String → Option String
  | [], _ => none
  | (k', v) :: rest, k => if k' = k then some v else dlookup rest k

/-- Remove every binding of key `k` (Python `del d[k]`; dict keys are unique,
so removing all occurrences is the faithful reading). -/
def derase : List (String × String) → String → List (String × String)
  | [], _ => []
  | (k', v) :: rest, k =>
      if k' = k then derase rest k else (k', v) :: derase rest k

/-- Bind key `k` to `v` (Python `d[k] = v`); only the mapping matters, so the
binding is re-added at the end. -/
def dset (l : List (String × String)) (k : String) (v : String) :
    List (String × String) :=
  derase l k ++ [(k, v)]

theorem dlookup_append (l1 l2 : List (String × String)) (k : String) :
    dlookup (l1 ++ l2) k =
      match dlookup l1 k with
      | some v => some v
      | none => dlookup l2 k := by
  induction l1 with
  | nil => simp [dlookup]
  | cons p rest ih =>
    obtain ⟨k', v⟩ := p
    by_cases h : k' = k <;> simp [dlookup, h, ih]

theorem dlookup_derase_self (l : List (String × String)) (k : String) :
    dlookup (derase l k) k = none := by
  induction l with
  | nil => simp [derase, dlookup]
  | cons p rest ih =>
    obtain ⟨k', v⟩ := p
    by_cases h : k' = k
    · simp [derase, h, ih]
    · simp [derase, h, dlookup, ih]

theorem dlookup_derase_ne (l : List (String × String)) (k k' : String)
    (h : k' ≠ k) : dlookup (derase l k) k' = dlookup l k' := by
  induction l with
  | nil => simp [derase]
  | cons p rest ih =>
    obtain ⟨ka, v⟩ := p
    by_cases hk : ka = k
    · subst hk
      have hne : ¬ ka = k' := fun hc => h hc.symm
      simp [derase, dlookup, hne, ih]
    · by_cases hk' : ka = k'
      · subst hk'
        simp [derase, hk, dlookup, ih]
      · simp [derase, hk, dlookup, hk', ih]

theorem dlookup_dset_self (l : List (String × String)) (k v : String) :
    dlookup (dset l k v) k = some v := by
  rw [dset, dlookup_append, dlookup_derase_self]
  simp [dlookup]

theorem dlookup_dset_ne (l : List (String × String)) (k v k' : String)
    (h : k' ≠ k) : dlookup (dset l k v) k' = dlookup l k' := by
  rw [dset, dlookup_append]
  rw [dlookup_derase_ne l k k' h]
  cases hl : dlookup l k' with
  | some w => simp
  | none =>
    have hne : ¬ k = k' := fun hc => h hc.symm
    simp [dlookup, hne]

/-! ## base64url (base64.urlsafe_b64encode / urlsafe_b64decode)

The repository base64url-encodes every binary field it persists.  The
codec is defined concretely on byte lists; `61` is the ASCII code of the
padding character `=`. -/

/-- The base64url alphabet: sextet `n` to its ASCII byte. -/
def b64byte (n : Nat) : Nat :=
  if n < 26 then 65 + n
  else if n < 52 then 97 + (n - 26)
  else if n < 62 then 48 + (n - 52)
  else if n = 62 then 45
  else 95

/-- Inverse table: ASCII byte back to its sextet. -/
def b64idx (b : Nat) : Nat :=
  if 65 ≤ b ∧ b ≤ 90 then b - 65
  else if 97 ≤ b ∧ b ≤ 122 then 26 + (b - 97)
  else if 48 ≤ b ∧ b ≤ 57 then 52 + (b - 48)
  else if b = 45 then 62
  else if b = 95 then 63
  else 0

/-- Model of `base64.urlsafe_b64encode` on a byte list. -/
def b64encodeB : List Nat → List Nat
  | [] => []
  | [a] => [b64byte (a / 4), b64byte (a % 4 * 16), 61, 61]
  | [a, b] => [b64byte (a / 4), b64byte (a % 4 * 16 + b / 16), b64byte (b % 16 * 4), 61]
  | a :: b :: d :: rest =>
      b64byte (a / 4) :: b64byte (a % 4 * 16 + b / 16) ::
        b64byte (b % 16 * 4 + d / 64) :: b64byte (d % 64) :: b64encodeB rest

/-- Model of `base64.urlsafe_b64decode` on a byte list (defined on well-padded
input, which is the only shape the repository ever feeds it). -/
def b64decodeB : List Nat → List Nat
  | c1 :: c2 :: c3 :: c4 :: rest =>
      if c3 = 61 then [b64idx c1 * 4 + b64idx c2 / 16]
      else if c4 = 61 then
        [b64idx c1 * 4 + b64idx c2 / 16, b64idx c2 % 16 * 16 + b64idx c3 / 4]
      else
        (b64idx c1 * 4 + b64idx c2 / 16) ::
          (b64idx c2 % 16 * 16 + b64idx c3 / 4) ::
          (b64idx c3 % 4 * 64 + b64idx c4) :: b64decodeB rest
  | _ => []

theorem b64idx_b64byte : ∀ n, n < 64 → b64idx (b64byte n) = n := by decide

theorem b64byte_ne_61 (n : Nat) : b64byte n ≠ 61 := by
  unfold b64byte
  split_ifs <;> omega

/-- Bytes usable in a URL without quoting: the base64url alphabet. -/
def urlsafeByte (b : Nat) : Bool :=
  (65 ≤ b && b ≤ 90) || (97 ≤ b && b ≤ 122) || (48 ≤ b && b ≤ 57) ||
    b == 45 || b == 95

theorem urlsafeByte_b64byte (n : Nat) : urlsafeByte (b64byte n) = true := by
  unfold b64byte urlsafeByte
  split_ifs <;> simp <;> omega

/-- Round trip of the codec on genuine bytes. -/
theorem b64decodeB_b64encodeB :
    ∀ l : List Nat, (∀ x ∈ l, x < 256) → b64decodeB (b64encodeB l) = l := by
  intro l
  induction l using b64encodeB.induct with
  | case1 => intro _; rfl
  | case2 a =>
    intro h
    have ha : a < 256 := h a (by simp)
    have h1 : a / 4 < 64 := by omega
    have h2 : a % 4 * 16 < 64 := by omega
    simp only [b64encodeB, b64decodeB, if_pos rfl,
      b64idx_b64byte _ h1, b64idx_b64byte _ h2, ite_true,
      List.cons.injEq, and_true]
    omega
  | case3 a b =>
    intro h
    have ha : a < 256 := h a (by simp)
    have hb : b < 256 := h b (by simp)
    have h1 : a / 4 < 64 := by omega
    have h2 : a % 4 * 16 + b / 16 < 64 := by omega
    have h3 : b % 16 * 4 < 64 := by omega
    simp only [b64encodeB, b64decodeB, if_neg (b64byte_ne_61 _), if_pos rfl,
      b64idx_b64byte _ h1, b64idx_b64byte _ h2, b64idx_b64byte _ h3, ite_true,
      List.cons.injEq, and_true]
    omega
  | case4 a b d rest ih =>
    intro h
    have ha : a < 256 := h a (by simp)
    have hb : b < 256 := h b (by simp)
    have hd : d < 256 := h d (by simp)
    have h1 : a / 4 < 64 := by omega
    have h2 : a % 4 * 16 + b / 16 < 64 := by omega
    have h3 : b % 16 * 4 + d / 64 < 64 := by omega
    have h4 : d % 64 < 64 := by omega
    have hrest : ∀ x ∈ rest, x < 256 := fun x hx => h x (by simp [hx])
    simp only [b64encodeB, b64decodeB, if_neg (b64byte_ne_61 _),
      b64idx_b64byte _ h1, b64idx_b64byte _ h2, b64idx_b64byte _ h3,
      b64idx_b64byte _ h4, ih hrest, List.cons.injEq]
    refine ⟨by omega, by omega, by omega, trivial⟩

theorem b64byte_lt_256 (n : Nat) : b64byte n < 256 := by
  unfold b64byte
  split_ifs <;> omega

theorem b64encodeB_lt_256 :
    ∀ l : List Nat, ∀ x ∈ b64encodeB l, x < 256 := by
  intro l
  induction l using b64encodeB.induct with
  | case1 => intro x hx; simp [b64encodeB] at hx
  | case2 a =>
    intro x hx
    simp only [b64encodeB, List.mem_cons, List.not_mem_nil, or_false] at hx
    rcases hx with rfl | rfl | rfl | rfl
    all_goals first | exact b64byte_lt_256 _ | omega
  | case3 a b =>
    intro x hx
    simp only [b64encodeB, List.mem_cons, List.not_mem_nil, or_false] at hx
    rcases hx with rfl | rfl | rfl | rfl
    all_goals first | exact b64byte_lt_256 _ | omega
  | case4 a b d rest ih =>
    intro x hx
    simp only [b64encodeB, List.mem_cons] at hx
    rcases hx with rfl | rfl | rfl | rfl | h
    · exact b64byte_lt_256 _
    · exact b64byte_lt_256 _
    · exact b64byte_lt_256 _
    · exact b64byte_lt_256 _
    · exact ih x h

theorem urlsafeByte_ne_61 (x : Nat) (h : urlsafeByte x = true) : x ≠ 61 := by
  intro hx
  subst hx
  simp [urlsafeByte] at h

/-- Shape of an encoding: URL-safe body followed by `(3 - len mod 3) mod 3`
padding bytes. -/
theorem b64encodeB_split :
    ∀ l : List Nat, ∃ core padn,
      b64encodeB l = core ++ List.replicate padn 61 ∧
      padn = (3 - l.length % 3) % 3 ∧
      ∀ x ∈ core, urlsafeByte x = true := by
  intro l
  induction l using b64encodeB.induct with
  | case1 => exact ⟨[], 0, rfl, rfl, by simp⟩
  | case2 a =>
    refine ⟨[b64byte (a / 4), b64byte (a % 4 * 16)], 2, rfl, rfl, ?_⟩
    intro x hx
    simp at hx
    rcases hx with h | h <;> subst h <;> exact urlsafeByte_b64byte _
  | case3 a b =>
    refine ⟨[b64byte (a / 4), b64byte (a % 4 * 16 + b / 16), b64byte (b % 16 * 4)],
      1, rfl, rfl, ?_⟩
    intro x hx
    simp at hx
    rcases hx with h | h | h <;> subst h <;> exact urlsafeByte_b64byte _
  | case4 a b d rest ih =>
    obtain ⟨core, padn, henc, hpad, hmem⟩ := ih
    refine ⟨b64byte (a / 4) :: b64byte (a % 4 * 16 + b / 16) ::
      b64byte (b % 16 * 4 + d / 64) :: b64byte (d % 64) :: core, padn, ?_, ?_, ?_⟩
    · simp [b64encodeB, henc]
    · simp only [List.length_cons]
      omega
    · intro x hx
      simp at hx
      rcases hx with h | h | h | h | h
      · subst h; exact urlsafeByte_b64byte _
      · subst h; exact urlsafeByte_b64byte _
      · subst h; exact urlsafeByte_b64byte _
      · subst h; exact urlsafeByte_b64byte _
      · exact hmem x h

theorem b64encodeB_length :
    ∀ l : List Nat, (b64encodeB l).length = (l.length + 2) / 3 * 4 := by
  intro l
  induction l using b64encodeB.induct with
  | case1 => rfl
  | case2 a =>
    simp only [b64encodeB, List.length_cons, List.length_nil]
  | case3 a b =>
    simp only [b64encodeB, List.length_cons, List.length_nil]
  | case4 a b d rest ih =>
    simp only [b64encodeB, List.length_cons, ih]
    omega

/-- Model of `bytes.rstrip(b'=')`: drop the trailing padding bytes. -/
def rstripPad (l : List Nat) : List Nat :=
  (l.reverse.dropWhile (· == 61)).reverse

theorem dropWhile61_replicate (n : Nat) (l : List Nat) :
    List.dropWhile (· == 61) (List.replicate n 61 ++ l) =
      List.dropWhile (· == 61) l := by
  induction n with
  | zero => simp
  | succ m ih => simp [List.replicate, List.dropWhile, ih]

theorem dropWhile61_no61 (l : List Nat) (h : ∀ x ∈ l, x ≠ 61) :
    List.dropWhile (· == 61) l = l := by
  cases l with
  | nil => rfl
  | cons x rest =>
    have hx : x ≠ 61 := h x (by simp)
    have hb : (x == 61) = false := beq_eq_false_iff_ne.mpr hx
    simp [List.dropWhile, hb]

theorem rstripPad_append_replicate (core : List Nat) (n : Nat)
    (h : ∀ x ∈ core, x ≠ 61) :
    rstripPad (core ++ List.replicate n 61) = core := by
  unfold rstripPad
  rw [List.reverse_append, List.reverse_replicate, dropWhile61_replicate]
  rw [dropWhile61_no61 core.reverse (fun x hx => h x (List.mem_reverse.mp hx))]
  exact List.reverse_reverse core

/-- On input whose length is 2 mod 3 (such as a 32-byte SHA-256 digest), the
encoding carries exactly one padding byte, so dropping the last byte is the
same as stripping the padding. -/
theorem dropLast_b64encodeB_eq_rstripPad (l : List Nat) (h : l.length % 3 = 2) :
    (b64encodeB l).dropLast = rstripPad (b64encodeB l) := by
  obtain ⟨core, padn, henc, hpad, hmem⟩ := b64encodeB_split l
  have hp1 : padn = 1 := by omega
  subst hp1
  have hne : ∀ x ∈ core, x ≠ 61 := fun x hx => urlsafeByte_ne_61 x (hmem x hx)
  rw [henc, rstripPad_append_replicate core 1 hne]
  simp

/-- On input whose length is divisible by 3 (such as the 90 random bytes of
the PKCE verifier), the encoding has no padding and stripping is the
identity. -/
theorem rstripPad_b64encodeB_mod0 (l : List Nat) (h : l.length % 3 = 0) :
    rstripPad (b64encodeB l) = b64encodeB l := by
  obtain ⟨core, padn, henc, hpad, hmem⟩ := b64encodeB_split l
  have hp0 : padn = 0 := by omega
  subst hp0
  have hne : ∀ x ∈ core, x ≠ 61 := fun x hx => urlsafeByte_ne_61 x (hmem x hx)
  rw [henc]
  simpa using rstripPad_append_replicate core 0 hne

/-! ## AES-CTR as a keystream cipher

CTR mode turns AES into a stream cipher: byte `i` of the message is XORed
with byte `i` of a keystream that depends only on the key and the nonce.
The keystream is a parameter (AES itself is library code); the XOR
composition is what `_encrypt` / `from_saved_session` implement. -/

/-- XOR a byte list against the keystream starting at position `i`
(`cipher.encryptor().update(data)` and the matching decryptor). -/
def ctrApply (ks : Nat → Nat) : Nat → List Nat → List Nat
  | _, [] => []
  | i, b :: rest => (b ^^^ ks i % 256) :: ctrApply ks (i + 1) rest

theorem ctrApply_ctrApply (ks : Nat → Nat) :
    ∀ i l, ctrApply ks i (ctrApply ks i l) = l := by
  intro i l
  induction l generalizing i with
  | nil => rfl
  | cons b rest ih => simp [ctrApply, Nat.xor_cancel_right, ih]

theorem xor_lt_256 (a b : Nat) (ha : a < 256) (hb : b < 256) : a ^^^ b < 256 := by
  have ha' : a < 2 ^ 8 := by omega
  have hb' : b < 2 ^ 8 := by omega
  have h := Nat.bitwise_lt_two_pow (f := bne) ha' hb'
  have hx : a ^^^ b = Nat.bitwise bne a b := rfl
  omega

theorem ctrApply_lt_256 (ks : Nat → Nat) :
    ∀ i l, (∀ x ∈ l, x < 256) → ∀ x ∈ ctrApply ks i l, x < 256 := by
  intro i l
  induction l generalizing i with
  | nil => intro _ x hx; simp [ctrApply] at hx
  | cons b rest ih =>
    intro h x hx
    simp [ctrApply] at hx
    rcases hx with h1 | h1
    · subst h1
      exact xor_lt_256 _ _ (h b (by simp)) (Nat.mod_lt _ (by omega))
    · exact ih (i + 1) (fun y hy => h y (by simp [hy])) x h1

/-! ## C1 — the session crypto pipeline -/

/-- The `cryptoparams` dict built by `_encrypt` (lines 302-307); the binary
fields are stored base64url-encoded. -/
structure CryptoParams where
  algo : String
  mode : String
  key : List Nat
  nonce : List Nat

/-- Model of `OAuth2Client._encode_dict`: `json.dumps` (the `dumps` parameter, an
external serializer producing UTF-8 bytes) followed by base64url. -/
def _encode_dict {P : Type} (dumps : P → List Nat) (d : P) : List Nat :=
  b64encodeB (dumps d)

/-- Model of `OAuth2Client._encrypt` (lines 296-313): draw a fresh AES key and nonce
(the `key`/`nonce` arguments stand for the two `os.urandom` results), wrap
the key with RSA-OAEP (`rsaEncrypt`), and stream-encrypt the payload with
AES-CTR. -/
def _encrypt (rsaEncrypt : List Nat → List Nat)
    (keystream : List Nat → List Nat → Nat → Nat)
    (key nonce : List Nat) (data : List Nat) : List Nat × CryptoParams :=
  (ctrApply (keystream key nonce) 0 data,
   { algo := "AES", mode := "CTR",
     key := b64encodeB (rsaEncrypt key), nonce := b64encodeB nonce })

/-- The decryption pipeline of `from_saved_session` (lines 233-242): unwrap
the AES key with the RSA private key (`rsaDecrypt`), base64url-decode the
stored fields, apply AES-CTR, then base64url-decode and JSON-parse the
plaintext. -/
def from_saved_session_decrypt {P : Type} (rsaDecrypt : List Nat → List Nat)
    (keystream : List Nat → List Nat → Nat → Nat)
    (loads : List Nat → Option P)
    (dataField : List Nat) (params : CryptoParams) : Option P :=
  let key := rsaDecrypt (b64decodeB params.key)
  let nonce := b64decodeB params.nonce
  let data := ctrApply (keystream key nonce) 0 (b64decodeB dataField)
  loads (b64decodeB data)

/-- C1: round trip of the session crypto.  For every JSON-serializable
payload `D` (any `dumps`/`loads` pair with the documented round-trip
property), decrypting the stored form of `_encrypt (_encode_dict D)` as
`from_saved_session` does — RSA-OAEP key unwrap, AES-CTR with the stored
nonce, base64url decode, JSON parse — reproduces `D` exactly.  The RSA
hypotheses are the library contract that the private key inverts the
public-key wrap and produces byte output. -/
theorem crypto_roundtrip {P : Type} (dumps : P → List Nat)
    (loads : List Nat → Option P)
    (rsaEncrypt rsaDecrypt : List Nat → List Nat)
    (keystream : List Nat → List Nat → Nat → Nat)
    (key nonce : List Nat) (D : P)
    (hjson : loads (dumps D) = some D)
    (hdumps : ∀ x ∈ dumps D, x < 256)
    (hrsa : rsaDecrypt (rsaEncrypt key) = key)
    (hwrap : ∀ x ∈ rsaEncrypt key, x < 256)
    (hnonce : ∀ x ∈ nonce, x < 256) :
    from_saved_session_decrypt rsaDecrypt keystream loads
      (b64encodeB (_encrypt rsaEncrypt keystream key nonce
        (_encode_dict dumps D)).1)
      (_encrypt rsaEncrypt keystream key nonce (_encode_dict dumps D)).2 =
      some D := by
  simp only [from_saved_session_decrypt, _encrypt, _encode_dict]
  rw [b64decodeB_b64encodeB _ hwrap, hrsa, b64decodeB_b64encodeB _ hnonce]
  rw [b64decodeB_b64encodeB _
    (ctrApply_lt_256 _ 0 _ (b64encodeB_lt_256 _))]
  rw [ctrApply_ctrApply]
  rw [b64decodeB_b64encodeB _ hdumps, hjson]

/-- Witness for C1: a concrete instantiation (identity RSA pair, constant
keystream, a one-byte serializer) on the payload `42`. -/
theorem crypto_roundtrip_witness :
    (fun l : List Nat => if l = [65] then some 42 else none)
        ((fun _ : Nat => [65]) 42) = some 42 ∧
    from_saved_session_decrypt id (fun _ _ _ => 7)
      (fun l : List Nat => if l = [65] then some 42 else none)
      (b64encodeB (_encrypt id (fun _ _ _ => 7) [1] [2]
        (_encode_dict (fun _ : Nat => [65]) 42)).1)
      (_encrypt id (fun _ _ _ => 7) [1] [2]
        (_encode_dict (fun _ : Nat => [65]) 42)).2 = some 42 := by
  refine ⟨by decide, ?_⟩
  exact crypto_roundtrip (fun _ : Nat => [65])
    (fun l : List Nat => if l = [65] then some 42 else none)
    id id (fun _ _ _ => 7) [1] [2] 42
    (by decide) (by decide) (by decide) (by decide) (by decide)

/-! ## C6 — PKCE context generation -/

/-- Model of `secrets.token_urlsafe` applied to a given pool of random bytes:
base64url without padding (the Python implementation strips `=`). -/
def token_urlsafe (randomBytes : List Nat) : List Nat :=
  rstripPad (b64encodeB randomBytes)

/-- The `pkce_challenge` dict of lines 383-386. -/
structure PkceChallenge where
  code_challenge_method : String
  code_challenge : List Nat

/-- Model of `OAuth2Client._generate_pkce_context` (lines 377-387): a verifier from
`secrets.token_urlsafe(90)` (90 bytes drawn from `urandom`) and the
challenge `base64.urlsafe_b64encode(sha256(verifier).digest())[:-1]`.
`urandom` and `sha256` are the library primitives, passed as parameters. -/
def _generate_pkce_context (urandom : Nat → List Nat)
    (sha256 : List Nat → List Nat) : List Nat × PkceChallenge :=
  let verifier := token_urlsafe (urandom 90)
  let digest := sha256 verifier
  let challenge := (b64encodeB digest).dropLast
  (verifier,
   { code_challenge_method := "S256", code_challenge := challenge })

/-- C6: every PKCE context is built from 90 random bytes; the verifier uses
only URL-safe bytes (and has the full 120 encoded characters); the method is
S256; and the challenge — computed in the source by dropping the final byte
of the base64url encoding of the 32-byte SHA-256 digest — equals that
encoding with its padding stripped. -/
theorem pkce_context_spec (urandom : Nat → List Nat)
    (sha256 : List Nat → List Nat)
    (h90 : (urandom 90).length = 90)
    (h32 : ∀ l, (sha256 l).length = 32) :
    (_generate_pkce_context urandom sha256).1 =
        token_urlsafe (urandom 90) ∧
    (∀ x ∈ (_generate_pkce_context urandom sha256).1, urlsafeByte x = true) ∧
    (_generate_pkce_context urandom sha256).1.length = 120 ∧
    (_generate_pkce_context urandom sha256).2.code_challenge_method = "S256" ∧
    (_generate_pkce_context urandom sha256).2.code_challenge =
        rstripPad (b64encodeB
          (sha256 (_generate_pkce_context urandom sha256).1)) := by
  have hmod : (urandom 90).length % 3 = 0 := by rw [h90]
  have hid := rstripPad_b64encodeB_mod0 (urandom 90) hmod
  refine ⟨rfl, ?_, ?_, rfl, ?_⟩
  · intro x hx
    simp only [_generate_pkce_context, token_urlsafe] at hx
    rw [hid] at hx
    obtain ⟨core, padn, henc, hpad, hmem⟩ := b64encodeB_split (urandom 90)
    have hp0 : padn = 0 := by omega
    subst hp0
    rw [henc] at hx
    simp at hx
    exact hmem x hx
  · simp only [_generate_pkce_context, token_urlsafe]
    rw [hid, b64encodeB_length, h90]
  · simp only [_generate_pkce_context]
    exact dropLast_b64encodeB_eq_rstripPad _ (by rw [h32])

/-- Witness for C6: concrete `urandom` (all-zero bytes) and a constant
32-byte digest function. -/
theorem pkce_context_spec_witness :
    ((fun n : Nat => List.replicate n 0) 90).length = 90 ∧
    (_generate_pkce_context (fun n => List.replicate n 0)
        (fun _ => List.replicate 32 5)).2.code_challenge_method = "S256" ∧
    (_generate_pkce_context (fun n => List.replicate n 0)
        (fun _ => List.replicate 32 5)).2.code_challenge =
      rstripPad (b64encodeB (List.replicate 32 5)) := by
  have h := pkce_context_spec (fun n => List.replicate n 0)
    (fun _ => List.replicate 32 5) (by simp) (fun l => by simp)
  exact ⟨by simp, h.2.2.2.1, h.2.2.2.2⟩

/-! ## URL parsing (urllib.parse.urlparse / parse_qs)

Modelled at the character-list level, ASCII-faithfully: `urlparse(url).query`
is the text after the first `?` of the part before the first `#`; `parse_qs`
splits on `&`, drops empty chunks, chunks without `=` and chunks with an
empty value (keep_blank_values=False), and percent-decodes names and values
after replacing `+` with space. -/

def takeUntilChar (c : Char) (l : List Char) : List Char :=
  l.takeWhile (· != c)

def dropThroughChar (c : Char) : List Char → List Char
  | [] => []
  | x :: rest => if x = c then rest else dropThroughChar c rest

/-- Model of `urllib.parse.urlparse(url).query`. -/
def urlQuery (url : List Char) : List Char :=
  dropThroughChar '?' (takeUntilChar '#' url)

/-- Split on `&`, keeping empty chunks (they are filtered later). -/
def splitOnAmp : List Char → List (List Char)
  | [] => [[]]
  | c :: rest =>
      if c = '&' then [] :: splitOnAmp rest
      else
        match splitOnAmp rest with
        | [] => [[c]]
        | g :: gs => (c :: g) :: gs

/-- Split a chunk at its first `=`; `none` when there is no `=`. -/
def breakOnEq : List Char → Option (List Char × List Char)
  | [] => none
  | c :: rest =>
      if c = '=' then some ([], rest)
      else
        match breakOnEq rest with
        | none => none
        | some (a, b) => some (c :: a, b)

def hexVal (c : Char) : Option Nat :=
  if '0' ≤ c ∧ c ≤ '9' then some (c.toNat - 48)
  else if 'a' ≤ c ∧ c ≤ 'f' then some (c.toNat - 87)
  else if 'A' ≤ c ∧ c ≤ 'F' then some (c.toNat - 55)
  else none

/-- ASCII-level model of `urllib.parse.unquote`: decode `%XY` hex escapes,
leaving malformed escapes in place.  Structural recursion on a fuel that
starts at the input length (every step consumes at least one character, so
the fuel never runs out on the initial call). -/
def percentDecodeFuel : Nat → List Char → List Char
  | _, [] => []
  | 0, l => l
  | fuel + 1, c :: rest =>
      if c = '%' then
        match rest with
        | h1 :: h2 :: rest2 =>
            match hexVal h1, hexVal h2 with
            | some a, some b =>
                Char.ofNat (16 * a + b) :: percentDecodeFuel fuel rest2
            | _, _ => c :: percentDecodeFuel fuel rest
        | _ => c :: percentDecodeFuel fuel rest
      else c :: percentDecodeFuel fuel rest

def percentDecode (l : List Char) : List Char :=
  percentDecodeFuel l.length l

/-- First `.replace('+', ' ')` and then `unquote`, as `parse_qsl` applies to every
name and value. -/
def unquote_plus (l : List Char) : List Char :=
  percentDecode (l.map (fun c => if c = '+' then ' ' else c))

/-- Model of `urllib.parse.parse_qsl` with its defaults. -/
def parse_qsl (qs : List Char) : List (List Char × List Char) :=
  (splitOnAmp qs).filterMap fun chunk =>
    if chunk.isEmpty then none
    else
      match breakOnEq chunk with
      | none => none
      | some (name, value) =>
          if value.isEmpty then none
          else some (unquote_plus name, unquote_plus value)

/-- Group a parsed pair into the `parse_qs` dict of lists. -/
def qsInsert (acc : List (List Char × List (List Char)))
    (kv : List Char × List Char) : List (List Char × List (List Char)) :=
  if acc.any (fun p => p.1 == kv.1) then
    acc.map (fun p => if p.1 == kv.1 then (p.1, p.2 ++ [kv.2]) else p)
  else acc ++ [(kv.1, [kv.2])]

/-- Model of `urllib.parse.parse_qs`. -/
def parse_qs (qs : List Char) : List (List Char × List (List Char)) :=
  (parse_qsl qs).foldl qsInsert []

/-- Model of `OAuth2Client.validate_authurl` (lines 402-407): parse the URL, parse
its query string, and test for the `code` variable. -/
def validate_authurl (url : String) : Bool :=
  (parse_qs (urlQuery url.data)).any (fun p => p.1 == "code".data)

theorem qsInsert_any_key (acc : List (List Char × List (List Char)))
    (kv : List Char × List Char) (k : List Char) :
    (qsInsert acc kv).any (fun p => p.1 == k) =
      (acc.any (fun p => p.1 == k) || (kv.1 == k)) := by
  unfold qsInsert
  by_cases hc : acc.any (fun p => p.1 == kv.1) = true
  · simp only [hc, if_true]
    have hmap : (acc.map (fun p => if p.1 == kv.1 then (p.1, p.2 ++ [kv.2]) else p)).any
        (fun p => p.1 == k) = acc.any (fun p => p.1 == k) := by
      rw [List.any_map]
      have hfun : ((fun p : List Char × List (List Char) => p.1 == k) ∘
          fun p : List Char × List (List Char) =>
            if p.1 == kv.1 then (p.1, p.2 ++ [kv.2]) else p) =
          fun p : List Char × List (List Char) => p.1 == k := by
        funext q
        by_cases hq : (q.1 == kv.1) = true <;> simp [Function.comp, hq]
      rw [hfun]
    rw [hmap]
    by_cases hk : (kv.1 == k) = true
    · have hkeq : kv.1 = k := eq_of_beq hk
      subst hkeq
      simp [hc]
    · simp [hk]
  · simp only [hc, if_false]
    simp [List.any_append]

theorem parse_qs_any_key (k : List Char) :
    ∀ (ps : List (List Char × List Char))
      (acc : List (List Char × List (List Char))),
      ((ps.foldl qsInsert acc).any (fun p => p.1 == k)) =
        (acc.any (fun p => p.1 == k) || ps.any (fun p => p.1 == k)) := by
  intro ps
  induction ps with
  | nil => intro acc; simp
  | cons kv rest ih =>
    intro acc
    simp only [List.foldl_cons, ih, qsInsert_any_key, List.any_cons]
    cases acc.any (fun p => p.1 == k) <;> cases hk : (kv.1 == k) <;> simp

/-! ## C2 — authorization-URL arbitration

The HTTP redirect handler and the stdin reader race for the single
`authurl` slot; each competitor's check-and-set runs under `authurl_lock`,
so a run of the system is an arbitrary interleaving of atomic steps. -/

inductive HttpResp where
  | completed
  | alreadyProvided
  | invalidRequest
deriving DecidableEq

/-- Model of `_RedirectURIHandler.do_GET` (lines 71-87): rebuild the URL from the
request path, validate it, then check-and-set the `authurl` slot under
`authurl_lock`, answering `alreadyProvided` when the slot is taken. -/
def do_GET (slot : Option String) (path : String) :
    Option String × HttpResp :=
  let url := "http://localhost" ++ path
  if validate_authurl url then
    match slot with
    | some u => (some u, HttpResp.alreadyProvided)
    | none => (some url, HttpResp.completed)
  else (slot, HttpResp.invalidRequest)

inductive StdinOut where
  | accepted
  | rejected
  | browserProvided
  | idle
deriving DecidableEq

/-- One iteration of `_wait_for_authurl_on_stdin`'s loop (lines 412-429),
entered with the given input-readiness and pending line; the whole body runs
under `authurl_lock`.  Returns the new slot, what was printed, and whether
the loop exits. -/
def stdin_iter (slot : Option String) (ready : Bool) (line : String) :
    Option String × StdinOut × Bool :=
  match slot with
  | some u => (some u, StdinOut.browserProvided, true)
  | none =>
      if ready then
        if validate_authurl line then (some line, StdinOut.accepted, true)
        else (none, StdinOut.rejected, false)
      else (none, StdinOut.idle, false)

inductive AuthEvent where
  | httpGet : String → AuthEvent
  | stdinPoll : Bool → String → AuthEvent

/-- One serialized lock-protected step of either competitor. -/
def authStep (slot : Option String) : AuthEvent → Option String
  | AuthEvent.httpGet path => (do_GET slot path).1
  | AuthEvent.stdinPoll ready line => (stdin_iter slot ready line).1

/-- A whole authorization attempt: a sequence of interleaved steps. -/
def authRun (slot : Option String) (evs : List AuthEvent) : Option String :=
  evs.foldl authStep slot

theorem authStep_some (u : String) (e : AuthEvent) :
    authStep (some u) e = some u := by
  cases e with
  | httpGet path =>
    simp only [authStep, do_GET]
    split <;> rfl
  | stdinPoll ready line => rfl

/-- C2: the arbitration slot is single-assignment.  Once it holds a URL it
holds that URL after every further interleaving of handler and stdin steps;
a valid redirect arriving at a taken slot gets the `alreadyProvided`
response and changes nothing; the stdin side at a taken slot prints the
browser-cancellation notice and exits its loop. -/
theorem authurl_single_assignment :
    (∀ (u : String) (evs : List AuthEvent), authRun (some u) evs = some u) ∧
    (∀ (evs1 evs2 : List AuthEvent) (u : String),
        authRun none evs1 = some u →
        authRun none (evs1 ++ evs2) = some u) ∧
    (∀ (u path : String),
        validate_authurl ("http://localhost" ++ path) = true →
        do_GET (some u) path = (some u, HttpResp.alreadyProvided)) ∧
    (∀ (u line : String) (ready : Bool),
        stdin_iter (some u) ready line =
          (some u, StdinOut.browserProvided, true)) := by
  have hsome : ∀ (u : String) (evs : List AuthEvent),
      authRun (some u) evs = some u := by
    intro u evs
    induction evs with
    | nil => rfl
    | cons e rest ih =>
      show authRun (authStep (some u) e) rest = some u
      rw [authStep_some]
      exact ih
  refine ⟨hsome, ?_, ?_, ?_⟩
  · intro evs1 evs2 u h
    show List.foldl authStep none (evs1 ++ evs2) = some u
    rw [List.foldl_append]
    show authRun (authRun none evs1) evs2 = some u
    rw [h]
    exact hsome u evs2
  · intro u path h
    simp [do_GET, h]
  · intro u line ready
    rfl

/-- Witness for C2: a taken slot answers a concrete valid redirect with
`alreadyProvided`. -/
theorem authurl_single_assignment_witness :
    validate_authurl ("http://localhost" ++ "/?code=abc123") = true ∧
    do_GET (some "winner") "/?code=abc123" =
      (some "winner", HttpResp.alreadyProvided) := by
  refine ⟨by decide, ?_⟩
  exact authurl_single_assignment.2.2.1 "winner" "/?code=abc123" (by decide)

/-- C5: `validate_authurl` accepts a candidate exactly when the parsed
query string of the URL carries a `code` variable (the `parse_qs` dict has
key `code`, equivalently some parsed `name=value` pair — value non-empty,
per `parse_qs` defaults — has name `code`); the example redirect is
accepted, the favicon probe is rejected; and a rejected line makes the
stdin wait loop print the rejection and keep waiting with the slot
untouched rather than terminating. -/
theorem validate_authurl_spec :
    validate_authurl "http://localhost:8080/?code=abc123&state=xyz" = true ∧
    validate_authurl "http://localhost:8080/favicon.ico" = false ∧
    (∀ url : String, validate_authurl url =
        (parse_qsl (urlQuery url.data)).any (fun p => p.1 == "code".data)) ∧
    (∀ line : String, validate_authurl line = false →
        stdin_iter none true line = (none, StdinOut.rejected, false)) := by
  refine ⟨by decide, by decide, ?_, ?_⟩
  · intro url
    unfold validate_authurl parse_qs
    rw [parse_qs_any_key]
    simp
  · intro line h
    simp [stdin_iter, h]

/-- Witness for C5: the wait loop keeps waiting on the concrete invalid
favicon request. -/
theorem validate_authurl_spec_witness :
    validate_authurl "http://localhost:8080/favicon.ico" = false ∧
    stdin_iter none true "http://localhost:8080/favicon.ico" =
      (none, StdinOut.rejected, false) := by
  refine ⟨by decide, ?_⟩
  exact validate_authurl_spec.2.2.2 "http://localhost:8080/favicon.ico"
    (by decide)

/-! ## C3 — save_session path resolution -/

/-- Python truthiness of an optional string (`None` and `''` are falsy). -/
def optTruthy : Option String → Bool
  | none => false
  | some s => !s.isEmpty

/-- The path-resolution prologue of `save_session` (lines 315-321): an
if/elif/else on the `path` argument and the stored `session_file_path`.
Returns the chosen path together with the updated `session_file_path`, or
the `ValueError` message. -/
def save_session_choose (path : Option String)
    (session_file_path : Option String) :
    Except String (String × Option String) :=
  if path.isNone && optTruthy session_file_path then
    Except.ok (session_file_path.getD "", session_file_path)
  else if session_file_path.isNone && optTruthy path then
    Except.ok (path.getD "", path)
  else
    Except.error "No path specified and no default available."

/-- C3 (bug evidence): when an explicit path is supplied AND a stored
`session_file_path` exists, the else branch raises the `ValueError` whose
message claims no path was specified — even though both are known.  The
claim's "fails if and only if no path is known on either" is violated by
the code at this input. -/
theorem save_session_both_paths_error :
    save_session_choose (some "/tmp/new-session.json")
        (some "/tmp/old-session.json") =
      Except.error "No path specified and no default available." := rfl

/-! ## C4 — token socket server GET handler -/

/-- Python `k in d`. -/
def hasKey (d : List (String × String)) (k : String) : Bool :=
  d.any (fun p => p.1 == k)

theorem hasKey_eq_isSome (l : List (String × String)) (k : String) :
    hasKey l k = (dlookup l k).isSome := by
  induction l with
  | nil => rfl
  | cons p rest ih =>
    obtain ⟨k', v⟩ := p
    by_cases h : k' = k
    · subst h
      simp [hasKey, dlookup]
    · have hb : (k' == k) = false := by simp [h]
      simp only [hasKey, List.any_cons, hb, Bool.false_or, dlookup, h,
        if_false]
      exact ih

/-- Model of `_TokenSocketHandler.do_GET` (lines 103-112): send the `text/plain`
header, then under `token_lock` raise `NoTokenError` when the token dict is
falsy or lacks `access_token`, else write the access token as the body.
The result is the (content-type, body) pair or the error. -/
def do_GET_token (token : Option (List (String × String))) :
    Except String (String × String) :=
  match token with
  | none => Except.error "Cannot retreive access token"
  | some t =>
      if t.isEmpty || !(hasKey t "access_token") then
        Except.error "Cannot retreive access token"
      else
        Except.ok ("text/plain", (dlookup t "access_token").getD "")

/-- C4: a GET with no token set (or a token without `access_token`) fails
with the NoToken error, reported for that request only; once a token with
an access token is set, the response body is exactly that access token as
`text/plain`. -/
theorem socket_token_request_spec :
    (do_GET_token none = Except.error "Cannot retreive access token") ∧
    (∀ t, hasKey t "access_token" = false →
        do_GET_token (some t) = Except.error "Cannot retreive access token") ∧
    (∀ t s, dlookup t "access_token" = some s →
        do_GET_token (some t) = Except.ok ("text/plain", s)) := by
  refine ⟨rfl, ?_, ?_⟩
  · intro t h
    simp [do_GET_token, h]
  · intro t s h
    have hk : hasKey t "access_token" = true := by
      rw [hasKey_eq_isSome, h]
      rfl
    have hne : t.isEmpty = false := by
      cases t with
      | nil => simp [dlookup] at h
      | cons p rest => rfl
    simp [do_GET_token, hk, hne, h]

/-- Witness for C4: a concrete one-field token dict is served verbatim. -/
theorem socket_token_request_spec_witness :
    dlookup [("access_token", "tok-123")] "access_token" = some "tok-123" ∧
    do_GET_token (some [("access_token", "tok-123")]) =
      Except.ok ("text/plain", "tok-123") := by
  refine ⟨by decide, ?_⟩
  exact socket_token_request_spec.2.2 [("access_token", "tok-123")] "tok-123"
    (by decide)

/-! ## C8 — new-vault password acceptance -/

/-- An interactive event: a line entered at a `getpass` prompt, or a
cancellation (KeyboardInterrupt / EOFError; running out of input is the
same as EOF). -/
inductive PwEvent where
  | entry : String → PwEvent
  | cancel : PwEvent

/-- The password-prompt loop of `_init_saved_session` (lines 174-189),
consuming one `getpass` event per step.  The Python loop reads two
passwords per iteration; the state records whether a first password of
acceptable length is pending its repeat.  Too-short first entries re-prompt
without asking for a repeat; mismatched repeats restart the iteration;
cancellation at either prompt raises `NoPrivateKeyError`. -/
def password_loop : Option String → List PwEvent → Except String String
  | _, [] => Except.error "Cannot create private key without password."
  | _, PwEvent.cancel :: _ =>
      Except.error "Cannot create private key without password."
  | none, PwEvent.entry pw1 :: rest =>
      if pw1.length < 10 then password_loop none rest
      else password_loop (some pw1) rest
  | some pw1, PwEvent.entry pw2 :: rest =>
      if pw1 = pw2 then Except.ok pw1 else password_loop none rest

/-- The loop of `_init_saved_session` from its initial state. -/
def password_prompt_loop (evs : List PwEvent) : Except String String :=
  password_loop none evs

theorem password_loop_ok_length :
    ∀ (evs : List PwEvent) (st : Option String) (p : String),
      (∀ q, st = some q → 10 ≤ q.length) →
      password_loop st evs = Except.ok p → 10 ≤ p.length := by
  intro evs
  induction evs with
  | nil => intro st p _ h; simp [password_loop] at h
  | cons e rest ih =>
    intro st p hst h
    cases e with
    | cancel => cases st <;> simp [password_loop] at h
    | entry s =>
      cases st with
      | none =>
        by_cases hl : s.length < 10
        · rw [password_loop, if_pos hl] at h
          exact ih none p (by intro q hq; cases hq) h
        · rw [password_loop, if_neg hl] at h
          refine ih (some s) p ?_ h
          intro q hq
          cases hq
          omega
      | some pw1 =>
        by_cases he : pw1 = s
        · rw [password_loop, if_pos he] at h
          cases h
          exact hst p rfl
        · rw [password_loop, if_neg he] at h
          exact ih none p (by intro q hq; cases hq) h

/-- C8: a candidate password is accepted exactly when it is at least 10
characters and the repeated entry matches: any accepted password has
length at least 10; a matching pair of length at least 10 is accepted; a
short entry is rejected and the loop re-prompts; a mismatched repeat
re-prompts; and cancellation raises the fatal `NoPrivateKeyError`.  The
loop consumes at least one input event per prompt, so it is bounded by the
input stream (it is a total structural recursion). -/
theorem password_acceptance_spec :
    (∀ evs p, password_prompt_loop evs = Except.ok p → 10 ≤ p.length) ∧
    (∀ (p : String) rest, 10 ≤ p.length →
        password_prompt_loop (PwEvent.entry p :: PwEvent.entry p :: rest) =
          Except.ok p) ∧
    (∀ (p : String) rest, p.length < 10 →
        password_prompt_loop (PwEvent.entry p :: rest) =
          password_prompt_loop rest) ∧
    (∀ (p q : String) rest, 10 ≤ p.length → p ≠ q →
        password_prompt_loop (PwEvent.entry p :: PwEvent.entry q :: rest) =
          password_prompt_loop rest) ∧
    (∀ rest, password_prompt_loop (PwEvent.cancel :: rest) =
        Except.error "Cannot create private key without password.") := by
  refine ⟨?_, ?_, ?_, ?_, ?_⟩
  · intro evs p h
    exact password_loop_ok_length evs none p (by intro q hq; cases hq) h
  · intro p rest hp
    unfold password_prompt_loop
    rw [password_loop, if_neg (by omega)]
    rw [password_loop, if_pos rfl]
  · intro p rest hp
    unfold password_prompt_loop
    rw [password_loop, if_pos hp]
  · intro p q rest hp hne
    unfold password_prompt_loop
    rw [password_loop, if_neg (by omega)]
    rw [password_loop, if_neg hne]
  · intro rest
    rfl

/-- Witness for C8: the spec's scenario password accepted when entered
twice. -/
theorem password_acceptance_spec_witness :
    10 ≤ "abcdefghij".length ∧
    password_prompt_loop
        [PwEvent.entry "abcdefghij", PwEvent.entry "abcdefghij"] =
      Except.ok "abcdefghij" := by
  refine ⟨by decide, ?_⟩
  exact password_acceptance_spec.2.1 "abcdefghij" [] (by decide)

/-! ## C9 / C10 — save_session state effects and refresh_token -/

/-- The fields of `OAuth2Client` these claims touch.  `saved_session` maps
field names to their serialized values; `notifyCount` counts
`token_changed.notify()` calls (the delivered change notifications). -/
structure ClientState where
  saved_session : List (String × String)
  session_file_path : Option String
  hasPublicKey : Bool
  token : Option (List (String × String))
  notifyCount : Nat

/-- Model of `OAuth2Client.save_session` (lines 315-339) as a state transformer:
resolve the path (possibly recording it), raise if `_encrypt` has no public
key, set the `data` and `cryptoparams` fields, serialize the document, then
delete both fields again before writing.  `dataStr`/`paramsStr` are the
serialized ciphertext and cryptoparams produced by `_encrypt` (their values
depend on its randomness and do not affect the state discipline).  Returns
the updated state plus either the written (path, document) or the raised
error. -/
def save_session (st : ClientState) (path : Option String)
    (dataStr paramsStr : String) :
    ClientState × Except String (String × List (String × String)) :=
  match save_session_choose path st.session_file_path with
  | Except.error e => (st, Except.error e)
  | Except.ok (chosen, newSfp) =>
      let st1 := { st with session_file_path := newSfp }
      if !st.hasPublicKey then
        (st1, Except.error "No public key available")
      else
        let doc := dset (dset st1.saved_session "data" dataStr)
          "cryptoparams" paramsStr
        ({ st1 with
            saved_session := derase (derase doc "data") "cryptoparams" },
         Except.ok (chosen, doc))

/-- C9: frame property of `save_session`.  After every successful call the
in-memory `saved_session` holds neither `data` nor `cryptoparams`; those
fields are present exactly in the document serialized and written by the
call; and every other field (in particular `private_key` and `public_key`)
is unchanged. -/
theorem save_session_frame (st : ClientState) (path : Option String)
    (dataStr paramsStr : String) (st2 : ClientState) (chosen : String)
    (doc : List (String × String))
    (h : save_session st path dataStr paramsStr =
      (st2, Except.ok (chosen, doc))) :
    dlookup st2.saved_session "data" = none ∧
    dlookup st2.saved_session "cryptoparams" = none ∧
    (∀ k, k ≠ "data" → k ≠ "cryptoparams" →
        dlookup st2.saved_session k = dlookup st.saved_session k) ∧
    dlookup doc "data" = some dataStr ∧
    dlookup doc "cryptoparams" = some paramsStr := by
  unfold save_session at h
  cases hc : save_session_choose path st.session_file_path with
  | error e =>
    rw [hc] at h
    simp at h
  | ok pr =>
    obtain ⟨chosen2, newSfp⟩ := pr
    rw [hc] at h
    by_cases hpk : st.hasPublicKey = true
    · simp only [hpk, Bool.not_true, Bool.false_eq_true, if_false,
        Prod.mk.injEq, Except.ok.injEq] at h
      obtain ⟨hst2, hchosen, hdoc⟩ := h
      subst hst2
      subst hdoc
      refine ⟨?_, ?_, ?_, ?_, ?_⟩
      · rw [dlookup_derase_ne _ _ _ (by decide), dlookup_derase_self]
      · rw [dlookup_derase_self]
      · intro k hk1 hk2
        rw [dlookup_derase_ne _ _ _ hk2, dlookup_derase_ne _ _ _ hk1,
          dlookup_dset_ne _ _ _ _ hk2, dlookup_dset_ne _ _ _ _ hk1]
      · rw [dlookup_dset_ne _ _ _ _ (by decide), dlookup_dset_self]
      · rw [dlookup_dset_self]
    · simp only [Bool.not_eq_true] at hpk
      simp [hpk] at h

/-- Witness for C9: a concrete state whose `saved_session` holds the two
key fields; the save writes a document carrying `data`/`cryptoparams` and
hands back the state with `saved_session` exactly as before. -/
theorem save_session_frame_witness :
    save_session
        { saved_session := [("private_key", "PRIV"), ("public_key", "PUB")],
          session_file_path := some "/tmp/s.json", hasPublicKey := true,
          token := none, notifyCount := 0 }
        none "DATA" "PARAMS" =
      ({ saved_session := [("private_key", "PRIV"), ("public_key", "PUB")],
         session_file_path := some "/tmp/s.json", hasPublicKey := true,
         token := none, notifyCount := 0 },
       Except.ok ("/tmp/s.json",
         [("private_key", "PRIV"), ("public_key", "PUB"),
          ("data", "DATA"), ("cryptoparams", "PARAMS")])) ∧
    dlookup [("private_key", "PRIV"), ("public_key", "PUB")] "data" =
      none := by
  have hsave : save_session
      { saved_session := [("private_key", "PRIV"), ("public_key", "PUB")],
        session_file_path := some "/tmp/s.json", hasPublicKey := true,
        token := none, notifyCount := 0 }
      none "DATA" "PARAMS" =
      ({ saved_session := [("private_key", "PRIV"), ("public_key", "PUB")],
         session_file_path := some "/tmp/s.json", hasPublicKey := true,
         token := none, notifyCount := 0 },
       Except.ok ("/tmp/s.json",
         [("private_key", "PRIV"), ("public_key", "PUB"),
          ("data", "DATA"), ("cryptoparams", "PARAMS")])) := rfl
  exact ⟨hsave, (save_session_frame _ _ _ _ _ _ _ hsave).1⟩

theorem save_session_preserves_token (st : ClientState) (path : Option String)
    (dataStr paramsStr : String) :
    ((save_session st path dataStr paramsStr).1).token = st.token ∧
    ((save_session st path dataStr paramsStr).1).notifyCount =
      st.notifyCount := by
  unfold save_session
  cases hc : save_session_choose path st.session_file_path with
  | error e => exact ⟨rfl, rfl⟩
  | ok pr =>
    obtain ⟨chosen, newSfp⟩ := pr
    by_cases hpk : st.hasPublicKey = true
    · simp [hpk]
    · simp only [Bool.not_eq_true] at hpk
      simp [hpk]

/-- Model of `OAuth2Client.refresh_token` (lines 482-491): obtain the new token from
the external refresh (the `newToken` parameter), install it and notify all
waiters under `token_changed`, then call `save_session()` with no path.
Returns the final state and the exception that propagates, if any. -/
def refresh_token (st : ClientState) (newToken : List (String × String))
    (dataStr paramsStr : String) : ClientState × Option String :=
  match save_session
      { st with token := some newToken, notifyCount := st.notifyCount + 1 }
      none dataStr paramsStr with
  | (st2, Except.ok _) => (st2, none)
  | (st2, Except.error e) => (st2, some e)

/-- C10: no rollback on persistence failure during refresh.  Whenever the
external refresh succeeds but the subsequent `save_session` raises (for
example because no session file path is known), the new token is already
installed and the change notification already delivered when the exception
propagates. -/
theorem refresh_no_rollback (st : ClientState)
    (newToken : List (String × String)) (dataStr paramsStr : String)
    (st2 : ClientState) (e : String)
    (h : refresh_token st newToken dataStr paramsStr = (st2, some e)) :
    st2.token = some newToken ∧
    st2.notifyCount = st.notifyCount + 1 := by
  unfold refresh_token at h
  have hp := save_session_preserves_token
    { st with token := some newToken, notifyCount := st.notifyCount + 1 }
    none dataStr paramsStr
  cases hs : save_session
      { st with token := some newToken, notifyCount := st.notifyCount + 1 }
      none dataStr paramsStr with
  | mk st2' r =>
    rw [hs] at h hp
    cases r with
    | ok w => simp at h
    | error e' =>
      simp only [Prod.mk.injEq, Option.some.injEq] at h
      obtain ⟨hst, _⟩ := h
      subst hst
      exact hp

/-- Witness for C10: a state with no known session file path; the refresh
installs the token and delivers the notification, then the save raises. -/
theorem refresh_no_rollback_witness :
    refresh_token
        { saved_session := [], session_file_path := none,
          hasPublicKey := true, token := none, notifyCount := 3 }
        [("access_token", "new-tok")] "DATA" "PARAMS" =
      (({ saved_session := [], session_file_path := none,
          hasPublicKey := true, token := some [("access_token", "new-tok")],
          notifyCount := 4 } : ClientState),
        some "No path specified and no default available.") ∧
    (refresh_token
        { saved_session := [], session_file_path := none,
          hasPublicKey := true, token := none, notifyCount := 3 }
        [("access_token", "new-tok")] "DATA" "PARAMS").1.token =
      some [("access_token", "new-tok")] := by
  refine ⟨rfl, ?_⟩
  exact (refresh_no_rollback
    { saved_session := [], session_file_path := none,
      hasPublicKey := true, token := none, notifyCount := 3 }
    [("access_token", "new-tok")] "DATA" "PARAMS" _
    "No path specified and no default available." rfl).1

/-! ## C7 — atomic write discipline of _write_and_rename

The file-system effect of `_write_and_rename` is modelled as a trace of
elementary operations (the payload is written byte by byte, so partial
writes of the temporary file are observable states), applied to a map from
paths to (content, mode) pairs. -/

inductive FSOp where
  | openTrunc : String → FSOp
  | chmodOp : String → Nat → FSOp
  | writeByte : String → Nat → FSOp
  | closeOp : String → FSOp
  | renameOp : String → String → FSOp

/-- A file system: path to (content bytes, permission mode). -/
def FS : Type := String → Option (List Nat × Nat)

def fsUpdate (fs : FS) (p : String) (v : Option (List Nat × Nat)) : FS :=
  fun q => if q = p then v else fs q

/-- The mode of a file opened with `'wb'`: kept if the file exists,
otherwise the process default (umask-masked). -/
def openMode (umask : Nat) (prev : Option (List Nat × Nat)) : Nat :=
  match prev with
  | some pr => pr.2
  | none => umask

def applyOp (umask : Nat) (fs : FS) : FSOp → FS
  | FSOp.openTrunc p => fsUpdate fs p (some ([], openMode umask (fs p)))
  | FSOp.chmodOp p m =>
      match fs p with
      | some pr => fsUpdate fs p (some (pr.1, m))
      | none => fs
  | FSOp.writeByte p b =>
      match fs p with
      | some pr => fsUpdate fs p (some (pr.1 ++ [b], pr.2))
      | none => fs
  | FSOp.closeOp _ => fs
  | FSOp.renameOp src dst =>
      match fs src with
      | some v => fsUpdate (fsUpdate fs dst (some v)) src none
      | none => fs

def applyTrace (umask : Nat) (fs : FS) (ops : List FSOp) : FS :=
  ops.foldl (applyOp umask) fs

def tmpName (filename : String) : String := filename ++ ".new"

/-- Model of `OAuth2Client._write_and_rename` (lines 528-536): open
`filename + ".new"` truncating, chmod it to `0o600` before writing any
payload byte, write the payload, close, and rename over the target. -/
def _write_and_rename (data : List Nat) (filename : String) : List FSOp :=
  FSOp.openTrunc (tmpName filename) ::
    FSOp.chmodOp (tmpName filename) 0o600 ::
    (data.map (FSOp.writeByte (tmpName filename)) ++
      [FSOp.closeOp (tmpName filename),
       FSOp.renameOp (tmpName filename) filename])

theorem fsUpdate_same (fs : FS) (p : String) (v : Option (List Nat × Nat)) :
    fsUpdate fs p v p = v := by
  simp [fsUpdate]

theorem fsUpdate_other (fs : FS) (p q : String) (v : Option (List Nat × Nat))
    (h : q ≠ p) : fsUpdate fs p v q = fs q := by
  simp [fsUpdate, h]

theorem fsUpdate_fsUpdate (fs : FS) (p : String)
    (v w : Option (List Nat × Nat)) :
    fsUpdate (fsUpdate fs p v) p w = fsUpdate fs p w := by
  funext q
  by_cases h : q = p <;> simp [fsUpdate, h]

theorem tmpName_ne (filename : String) : filename ≠ tmpName filename := by
  intro h
  have hlen := congrArg String.length h
  have h4 : (".new" : String).length = 4 := rfl
  simp [tmpName, String.length_append, h4] at hlen

/-- Applying the write segment appends all its bytes to the temporary
file. -/
theorem applyTrace_writes (umask : Nat) (tmp : String) :
    ∀ (bs : List Nat) (fs : FS) (c : List Nat) (m : Nat),
      fs tmp = some (c, m) →
      applyTrace umask fs (bs.map (FSOp.writeByte tmp)) =
        fsUpdate fs tmp (some (c ++ bs, m)) := by
  intro bs
  induction bs with
  | nil =>
    intro fs c m h
    funext q
    by_cases hq : q = tmp
    · subst hq
      simp [applyTrace, fsUpdate, h]
    · simp [applyTrace, fsUpdate, hq]
  | cons b rest ih =>
    intro fs c m h
    show applyTrace umask (applyOp umask fs (FSOp.writeByte tmp b))
      (rest.map (FSOp.writeByte tmp)) = _
    have hstep : applyOp umask fs (FSOp.writeByte tmp b) =
        fsUpdate fs tmp (some (c ++ [b], m)) := by
      simp [applyOp, h]
    rw [hstep, ih _ (c ++ [b]) m (fsUpdate_same _ _ _), fsUpdate_fsUpdate]
    simp

theorem take_add_two {A : Type} (a b : A) (t : List A) (j : Nat) :
    (a :: b :: t).take (j + 2) = a :: b :: t.take j := rfl

/-- The state after every prefix of the `_write_and_rename` trace: the
initial file system, the freshly truncated temporary file, the chmod-ed
temporary file holding a prefix of the payload, or the renamed result. -/
theorem write_and_rename_states (data : List Nat) (filename : String)
    (umask : Nat) (fs0 : FS) (k : Nat) :
    applyTrace umask fs0 ((_write_and_rename data filename).take k) =
      if k = 0 then fs0
      else if k = 1 then
        fsUpdate fs0 (tmpName filename)
          (some ([], openMode umask (fs0 (tmpName filename))))
      else if k ≤ data.length + 3 then
        fsUpdate fs0 (tmpName filename) (some (data.take (k - 2), 0o600))
      else
        fsUpdate (fsUpdate fs0 filename (some (data, 0o600)))
          (tmpName filename) none := by
  by_cases hk0 : k = 0
  · subst hk0
    simp [applyTrace]
  by_cases hk1 : k = 1
  · subst hk1
    rw [if_neg (by omega), if_pos rfl]
    show applyTrace umask fs0 ([FSOp.openTrunc (tmpName filename)]) = _
    simp [applyTrace, applyOp]
  obtain ⟨j, rfl⟩ : ∃ j, k = j + 2 := ⟨k - 2, by omega⟩
  rw [if_neg hk0, if_neg hk1]
  unfold _write_and_rename
  rw [take_add_two]
  simp only [applyTrace, List.foldl_cons]
  have hS2 : applyOp umask
      (applyOp umask fs0 (FSOp.openTrunc (tmpName filename)))
      (FSOp.chmodOp (tmpName filename) 0o600) =
      fsUpdate fs0 (tmpName filename) (some ([], 0o600)) := by
    show applyOp umask
      (fsUpdate fs0 (tmpName filename)
        (some ([], openMode umask (fs0 (tmpName filename))))) _ = _
    simp [applyOp, fsUpdate_same, fsUpdate_fsUpdate]
  rw [hS2]
  have hWlen : (data.map (FSOp.writeByte (tmpName filename))).length =
      data.length := by simp
  by_cases hj : j ≤ data.length
  · have htake : (data.map (FSOp.writeByte (tmpName filename)) ++
        [FSOp.closeOp (tmpName filename),
         FSOp.renameOp (tmpName filename) filename]).take j =
        (data.take j).map (FSOp.writeByte (tmpName filename)) := by
      rw [List.take_append_eq_append_take, hWlen,
        show j - data.length = 0 from by omega]
      simp [List.map_take]
    rw [htake]
    have hwr := applyTrace_writes umask (tmpName filename) (data.take j)
      (fsUpdate fs0 (tmpName filename) (some ([], 0o600))) [] 0o600
      (fsUpdate_same _ _ _)
    rw [show List.foldl (applyOp umask)
        (fsUpdate fs0 (tmpName filename) (some ([], 0o600)))
        ((data.take j).map (FSOp.writeByte (tmpName filename))) =
        applyTrace umask
          (fsUpdate fs0 (tmpName filename) (some ([], 0o600)))
          ((data.take j).map (FSOp.writeByte (tmpName filename))) from rfl,
      hwr, fsUpdate_fsUpdate, if_pos (by omega : j + 2 ≤ data.length + 3)]
    simp
  by_cases hj1 : j = data.length + 1
  · subst hj1
    have htake : (data.map (FSOp.writeByte (tmpName filename)) ++
        [FSOp.closeOp (tmpName filename),
         FSOp.renameOp (tmpName filename) filename]).take (data.length + 1) =
        data.map (FSOp.writeByte (tmpName filename)) ++
          [FSOp.closeOp (tmpName filename)] := by
      rw [List.take_append_eq_append_take,
        List.take_of_length_le (by rw [hWlen]; omega), hWlen,
        show data.length + 1 - data.length = 1 from by omega]
      rfl
    rw [htake, List.foldl_append]
    have hwr := applyTrace_writes umask (tmpName filename) data
      (fsUpdate fs0 (tmpName filename) (some ([], 0o600))) [] 0o600
      (fsUpdate_same _ _ _)
    rw [show List.foldl (applyOp umask)
        (fsUpdate fs0 (tmpName filename) (some ([], 0o600)))
        (data.map (FSOp.writeByte (tmpName filename))) =
        applyTrace umask
          (fsUpdate fs0 (tmpName filename) (some ([], 0o600)))
          (data.map (FSOp.writeByte (tmpName filename))) from rfl,
      hwr, fsUpdate_fsUpdate]
    rw [if_pos (by omega : data.length + 1 + 2 ≤ data.length + 3)]
    rw [show data.length + 1 + 2 - 2 = data.length + 1 from by omega]
    rw [List.take_of_length_le (by omega : data.length ≤ data.length + 1)]
    rfl
  · have htake : (data.map (FSOp.writeByte (tmpName filename)) ++
        [FSOp.closeOp (tmpName filename),
         FSOp.renameOp (tmpName filename) filename]).take j =
        data.map (FSOp.writeByte (tmpName filename)) ++
          [FSOp.closeOp (tmpName filename),
           FSOp.renameOp (tmpName filename) filename] := by
      apply List.take_of_length_le
      rw [List.length_append, hWlen]
      simp only [List.length_cons, List.length_nil]
      omega
    rw [htake, List.foldl_append]
    have hwr := applyTrace_writes umask (tmpName filename) data
      (fsUpdate fs0 (tmpName filename) (some ([], 0o600))) [] 0o600
      (fsUpdate_same _ _ _)
    rw [show List.foldl (applyOp umask)
        (fsUpdate fs0 (tmpName filename) (some ([], 0o600)))
        (data.map (FSOp.writeByte (tmpName filename))) =
        applyTrace umask
          (fsUpdate fs0 (tmpName filename) (some ([], 0o600)))
          (data.map (FSOp.writeByte (tmpName filename))) from rfl,
      hwr, fsUpdate_fsUpdate]
    rw [if_neg (by omega : ¬ (j + 2 ≤ data.length + 3))]
    show applyOp umask (applyOp umask
      (fsUpdate fs0 (tmpName filename) (some ([] ++ data, 0o600)))
      (FSOp.closeOp (tmpName filename)))
      (FSOp.renameOp (tmpName filename) filename) = _
    rw [show applyOp umask
        (fsUpdate fs0 (tmpName filename) (some ([] ++ data, 0o600)))
        (FSOp.closeOp (tmpName filename)) =
        fsUpdate fs0 (tmpName filename) (some ([] ++ data, 0o600)) from rfl]
    simp only [List.nil_append]
    show (match fsUpdate fs0 (tmpName filename) (some (data, 0o600))
        (tmpName filename) with
      | some v => fsUpdate (fsUpdate
          (fsUpdate fs0 (tmpName filename) (some (data, 0o600)))
          filename (some v)) (tmpName filename) none
      | none => fsUpdate fs0 (tmpName filename) (some (data, 0o600))) = _
    rw [fsUpdate_same]
    show fsUpdate (fsUpdate
        (fsUpdate fs0 (tmpName filename) (some (data, 0o600)))
        filename (some (data, 0o600))) (tmpName filename) none = _
    funext q
    by_cases hq : q = tmpName filename
    · subst hq
      rw [fsUpdate_same, fsUpdate_same]
    · rw [fsUpdate_other _ _ _ _ hq, fsUpdate_other _ _ _ _ hq]
      by_cases hqf : q = filename
      · subst hqf
        rw [fsUpdate_same, fsUpdate_same]
      · rw [fsUpdate_other _ _ _ _ hqf, fsUpdate_other _ _ _ _ hqf,
          fsUpdate_other _ _ _ _ hq]

/-- C7: atomic write discipline.  The payload goes to `filename + ".new"`;
the temporary file's permission bits are `0o600` before any payload byte
lands in it (every intermediate state in which it is non-empty has mode
`0o600`); at every intermediate state the target path holds either its
original entry or the complete payload with mode `0o600` — never a
partially-written file; and the final state has the complete payload at
the target with the temporary file gone. -/
theorem write_and_rename_atomic (data : List Nat) (filename : String)
    (umask : Nat) (fs0 : FS) :
    (∀ k, applyTrace umask fs0 ((_write_and_rename data filename).take k)
          filename = fs0 filename ∨
        applyTrace umask fs0 ((_write_and_rename data filename).take k)
          filename = some (data, 0o600)) ∧
    (∀ k c m, 1 ≤ k →
        applyTrace umask fs0 ((_write_and_rename data filename).take k)
          (tmpName filename) = some (c, m) →
        c ≠ [] → m = 0o600) ∧
    applyTrace umask fs0 (_write_and_rename data filename) filename =
      some (data, 0o600) ∧
    applyTrace umask fs0 (_write_and_rename data filename)
      (tmpName filename) = none := by
  have hlen : (_write_and_rename data filename).length = data.length + 4 := by
    simp [_write_and_rename]
  have hfull : (_write_and_rename data filename).take (data.length + 4) =
      _write_and_rename data filename :=
    List.take_of_length_le (by omega)
  have hfin := write_and_rename_states data filename umask fs0
    (data.length + 4)
  rw [hfull, if_neg (by omega), if_neg (by omega), if_neg (by omega)] at hfin
  refine ⟨?_, ?_, ?_, ?_⟩
  · intro k
    rw [write_and_rename_states]
    split_ifs with h1 h2 h3
    · exact Or.inl rfl
    · exact Or.inl (fsUpdate_other _ _ _ _ (tmpName_ne filename))
    · exact Or.inl (fsUpdate_other _ _ _ _ (tmpName_ne filename))
    · right
      rw [fsUpdate_other _ _ _ _ (tmpName_ne filename), fsUpdate_same]
  · intro k c m hk1 heq hcne
    rw [write_and_rename_states] at heq
    split_ifs at heq with h1 h2 h3
    · omega
    · rw [fsUpdate_same] at heq
      simp only [Option.some.injEq, Prod.mk.injEq] at heq
      exact absurd heq.1.symm hcne
    · rw [fsUpdate_same] at heq
      simp only [Option.some.injEq, Prod.mk.injEq] at heq
      exact heq.2.symm
    · rw [fsUpdate_same] at heq
      cases heq
  · rw [hfin, fsUpdate_other _ _ _ _ (tmpName_ne filename), fsUpdate_same]
  · rw [hfin, fsUpdate_same]

/-- Witness for C7: with payload `[7]` and target `"t"`, after three
operations the temporary file holds the payload byte with mode `0o600`,
and the final state has the payload at the target. -/
theorem write_and_rename_atomic_witness :
    (1 ≤ 3) ∧
    applyTrace 420 (fun _ : String => (none : Option (List Nat × Nat)))
      ((_write_and_rename [7] "t").take 3) (tmpName "t") =
        some ([7], 0o600) ∧
    (384 : Nat) = 0o600 ∧
    applyTrace 420 (fun _ : String => (none : Option (List Nat × Nat)))
      (_write_and_rename [7] "t") "t" = some ([7], 0o600) := by
  have hstate : applyTrace 420
      (fun _ : String => (none : Option (List Nat × Nat)))
      ((_write_and_rename [7] "t").take 3) (tmpName "t") =
      some ([7], 0o600) := by decide
  refine ⟨by decide, hstate, ?_, ?_⟩
  · exact (write_and_rename_atomic [7] "t" 420
      (fun _ : String => (none : Option (List Nat × Nat)))).2.1
      3 [7] 384 (by decide) hstate (by decide)
  · exact (write_and_rename_atomic [7] "t" 420
      (fun _ : String => (none : Option (List Nat × Nat)))).2.2.1
